import Mathlib

/-!
Shallow embedding of the rust-rst streaming tokeniser and its
location-tracking layer (`src/tokens.rs`, `src/location.rs`, `src/ast.rs`),
with theorems checking the natural-language specification against the code.

Rust `String` values are modelled as `List Char`; `u64`/`usize` counters are
modelled as `Nat`; fallible iterator items (`Result<T, Error>`) are modelled
as `Except Unit T` (the error payload is irrelevant to the properties here).
-/

namespace Rst

/-- The character set Rust's `char::is_whitespace` accepts (the Unicode
`White_Space` property), used by `Token::parse_char` for its whitespace arm. -/
def rustIsWhitespace (c : Char) : Bool :=
  [0x9, 0xA, 0xB, 0xC, 0xD, 0x20, 0x85, 0xA0, 0x1680,
   0x2000, 0x2001, 0x2002, 0x2003, 0x2004, 0x2005, 0x2006, 0x2007,
   0x2008, 0x2009, 0x200A, 0x2028, 0x2029, 0x202F, 0x205F, 0x3000].contains c.toNat

/-- The `Token` enum of `src/tokens.rs`: one variant per lexical category,
with `Word` carrying the run of unclassified characters as text. -/
inductive Token where
  | Newline
  | Whitespace (c : Char)
  | Bullet
  | TriangularBullet
  | HyphenBullet
  | Exclamation
  | DoubleQuote
  | SingleQuote
  | Hash
  | Dollar
  | Percent
  | Ampersand
  | Asterisk
  | Plus
  | Comma
  | Hyphen
  | Period
  | ForwardSlash
  | Colon
  | SemiColon
  | LessThan
  | Equal
  | GreaterThan
  | Question
  | At
  | BackSlash
  | Caret
  | Underscore
  | Backtick
  | Pipe
  | Tilde
  | OpenParen
  | CloseParen
  | OpenBracket
  | CloseBracket
  | OpenBrace
  | CloseBrace
  | Word (s : List Char)
  deriving DecidableEq, Repr

namespace Token

/-- The punctuation/bullet/bracket arms of `Token::parse_char`
(`src/tokens.rs`), as the ordered table the Rust `match` encodes: the first
entry whose character equals the scrutinee gives the token. -/
def charTable : List (Char × Token) :=
  [ ('•', .Bullet),
    ('‣', .TriangularBullet),
    ('⁃', .HyphenBullet),
    ('!', .Exclamation),
    (Char.ofNat 0x22, .DoubleQuote),
    (Char.ofNat 0x27, .SingleQuote),
    ('#', .Hash),
    ('$', .Dollar),
    ('%', .Percent),
    ('&', .Ampersand),
    ('*', .Asterisk),
    ('+', .Plus),
    (',', .Comma),
    ('-', .Hyphen),
    ('.', .Period),
    ('/', .ForwardSlash),
    (':', .Colon),
    (';', .SemiColon),
    ('<', .LessThan),
    ('=', .Equal),
    ('>', .GreaterThan),
    ('?', .Question),
    ('@', .At),
    (Char.ofNat 0x5C, .BackSlash),
    ('^', .Caret),
    ('_', .Underscore),
    (Char.ofNat 0x60, .Backtick),
    ('|', .Pipe),
    ('~', .Tilde),
    ('(', .OpenParen),
    (')', .CloseParen),
    ('[', .OpenBracket),
    (']', .CloseBracket),
    (Char.ofNat 0x7B, .OpenBrace),
    (Char.ofNat 0x7D, .CloseBrace) ]

/-- First-match search through an ordered character table (the semantics of
the Rust `match` statement's arm order). -/
def findToken : List (Char × Token) → Char → Option Token
  | [], _ => none
  | (k, t) :: rest, c => if c = k then some t else findToken rest c

/-- `Token::parse_char` from `src/tokens.rs`: classify a single character,
or return `none` when the character belongs to a word run.  The match arms
are kept in source order: `'\n'` first, then the general whitespace guard,
then the fixed punctuation table. -/
def parse_char (c : Char) : Option Token :=
  if c = '\n' then some .Newline
  else if rustIsWhitespace c then some (.Whitespace c)
  else findToken charTable c

end Token

/-- The exact characters a token stands for in the input: the newline
character for `Newline`, the carried character for `Whitespace`, the single
mapped character for each punctuation/bullet/bracket token, and the word's
text for `Word`.  This inverts the `Token::parse_char` table. -/
def render : Token → List Char
  | .Newline => ['\n']
  | .Whitespace c => [c]
  | .Bullet => ['•']
  | .TriangularBullet => ['‣']
  | .HyphenBullet => ['⁃']
  | .Exclamation => ['!']
  | .DoubleQuote => [Char.ofNat 0x22]
  | .SingleQuote => [Char.ofNat 0x27]
  | .Hash => ['#']
  | .Dollar => ['$']
  | .Percent => ['%']
  | .Ampersand => ['&']
  | .Asterisk => ['*']
  | .Plus => ['+']
  | .Comma => [',']
  | .Hyphen => ['-']
  | .Period => ['.']
  | .ForwardSlash => ['/']
  | .Colon => [':']
  | .SemiColon => [';']
  | .LessThan => ['<']
  | .Equal => ['=']
  | .GreaterThan => ['>']
  | .Question => ['?']
  | .At => ['@']
  | .BackSlash => [Char.ofNat 0x5C]
  | .Caret => ['^']
  | .Underscore => ['_']
  | .Backtick => [Char.ofNat 0x60]
  | .Pipe => ['|']
  | .Tilde => ['~']
  | .OpenParen => ['(']
  | .CloseParen => [')']
  | .OpenBracket => ['[']
  | .CloseBracket => [']']
  | .OpenBrace => [Char.ofNat 0x7B]
  | .CloseBrace => [Char.ofNat 0x7D]
  | .Word s => s

/-- Concatenation of the characters the emitted tokens stand for,
in emission order. -/
def renderAll : List Token → List Char
  | [] => []
  | t :: ts => render t ++ renderAll ts

/-- `<TokenStream as Iterator>::next` from `src/tokens.rs`, drained to the
end of an error-free character source: the internal loop of `next` threads
the one-token lookahead `buffer` through the remaining characters, and every
emitted token is prepended in emission order.  The five match arms mirror the
Rust `match (buffer, Token::parse_char(c))` exactly, and the `[]` case is the
end-of-source flush `buffer.map(Ok)`. -/
def tokenizeAux (buffer : Option Token) : List Char → List Token
  | [] => buffer.toList
  | c :: rest =>
    match buffer, Token.parse_char c with
    | some (Token.Word s), none => tokenizeAux (some (Token.Word (s ++ [c]))) rest
    | some t, none => t :: tokenizeAux (some (Token.Word [c])) rest
    | some t, some tok => t :: tokenizeAux (some tok) rest
    | none, some tok => tok :: tokenizeAux none rest
    | none, none => tokenizeAux (some (Token.Word [c])) rest

end Rst

namespace Rst

/-- `TokenStream::next` drained from the initial idle state (empty buffer). -/
def tokenize (input : List Char) : List Token :=
  tokenizeAux none input

example : tokenize ("abc123".data) = [Token.Word ("abc123".data)] := by decide

example : tokenize ("a-b".data) =
    [Token.Word ['a'], Token.Hyphen, Token.Word ['b']] := by decide

example : renderAll (tokenize ("a-b c\n".data)) = "a-b c\n".data := by decide

end Rst

namespace Rst

/-- A successful first-match lookup returns an entry of the table. -/
theorem findToken_mem :
    ∀ (table : List (Char × Token)) (c : Char) (t : Token),
      Token.findToken table c = some t → (c, t) ∈ table := by
  intro table
  induction table with
  | nil => intro c t h; simp [Token.findToken] at h
  | cons p rest ih =>
    intro c t h
    obtain ⟨k, u⟩ := p
    by_cases hc : c = k
    · subst hc
      simp [Token.findToken] at h
      simp [h]
    · simp [Token.findToken, hc] at h
      exact List.mem_cons_of_mem _ (ih c t h)

/-- Every entry of the classification table renders back to its own
character. -/
theorem charTable_renders : ∀ p ∈ Token.charTable, render p.2 = [p.1] := by
  decide

/-- No entry of the classification table is a `Word` token. -/
theorem charTable_no_word : ∀ p ∈ Token.charTable, ∀ s, p.2 ≠ Token.Word s := by
  intro p hp s
  fin_cases hp <;> simp

/-- Every classified character renders back to itself: if `parse_char c`
yields a token, that token stands for exactly `[c]`. -/
theorem render_parse_char (c : Char) (t : Token) (h : Token.parse_char c = some t) :
    render t = [c] := by
  unfold Token.parse_char at h
  split_ifs at h with h1 h2
  · cases h; simp [render, h1]
  · cases h; simp [render]
  · have := charTable_renders _ (findToken_mem _ _ _ h)
    simpa using this

/-- `parse_char` never produces a `Word` token. -/
theorem parse_char_ne_word (c : Char) (s : List Char) :
    Token.parse_char c ≠ some (Token.Word s) := by
  unfold Token.parse_char
  split_ifs with h1 h2
  · simp
  · simp
  · intro h
    exact charTable_no_word _ (findToken_mem _ _ _ h) s rfl

/-- Reduction: end of input flushes the buffer. -/
theorem tokenizeAux_nil (b : Option Token) : tokenizeAux b [] = b.toList := rfl

/-- Reduction: a word character extends a buffered `Word`. -/
theorem tokenizeAux_word_extend (s : List Char) (c : Char) (rest : List Char)
    (hp : Token.parse_char c = none) :
    tokenizeAux (some (Token.Word s)) (c :: rest)
      = tokenizeAux (some (Token.Word (s ++ [c]))) rest := by
  simp [tokenizeAux, hp]

/-- Reduction: a word character after a buffered non-word token emits the
buffered token and starts a fresh one-character word. -/
theorem tokenizeAux_nonword_then_word (t : Token) (c : Char) (rest : List Char)
    (hp : Token.parse_char c = none) (ht : ∀ s, t ≠ Token.Word s) :
    tokenizeAux (some t) (c :: rest)
      = t :: tokenizeAux (some (Token.Word [c])) rest := by
  cases t <;> simp [tokenizeAux, hp]
  exact absurd rfl (ht _)

/-- Reduction: a classified character emits the buffered token and buffers
the new one. -/
theorem tokenizeAux_buf_classified (t tok : Token) (c : Char) (rest : List Char)
    (hp : Token.parse_char c = some tok) :
    tokenizeAux (some t) (c :: rest) = t :: tokenizeAux (some tok) rest := by
  cases t <;> simp [tokenizeAux, hp]

/-- Reduction: with an empty buffer a classified character is emitted
immediately. -/
theorem tokenizeAux_none_classified (tok : Token) (c : Char) (rest : List Char)
    (hp : Token.parse_char c = some tok) :
    tokenizeAux none (c :: rest) = tok :: tokenizeAux none rest := by
  simp [tokenizeAux, hp]

/-- Reduction: with an empty buffer a word character starts a
one-character word. -/
theorem tokenizeAux_none_word (c : Char) (rest : List Char)
    (hp : Token.parse_char c = none) :
    tokenizeAux none (c :: rest) = tokenizeAux (some (Token.Word [c])) rest := by
  simp [tokenizeAux, hp]

/-- Characters the current lookahead buffer stands for. -/
def renderBuf : Option Token → List Char
  | none => []
  | some t => render t

/-- Draining the stream from any buffer state covers exactly the buffered
characters followed by the remaining input. -/
theorem renderAll_tokenizeAux (chars : List Char) :
    ∀ buffer : Option Token,
      renderAll (tokenizeAux buffer chars) = renderBuf buffer ++ chars := by
  induction chars with
  | nil =>
    intro buffer
    cases buffer <;> simp [tokenizeAux_nil, renderAll, renderBuf]
  | cons c rest ih =>
    intro buffer
    cases hp : Token.parse_char c with
    | none =>
      cases buffer with
      | none =>
        rw [tokenizeAux_none_word c rest hp, ih]
        simp [renderBuf, render]
      | some t =>
        by_cases hw : ∃ s, t = Token.Word s
        · obtain ⟨s, rfl⟩ := hw
          rw [tokenizeAux_word_extend s c rest hp, ih]
          simp [renderBuf, render]
        · push_neg at hw
          rw [tokenizeAux_nonword_then_word t c rest hp hw]
          simp only [renderAll, ih, renderBuf, render]
          simp
    | some tok =>
      have hr := render_parse_char c tok hp
      cases buffer with
      | none =>
        rw [tokenizeAux_none_classified tok c rest hp]
        simp only [renderAll, ih, renderBuf, hr]
        simp
      | some t =>
        rw [tokenizeAux_buf_classified t tok c rest hp]
        simp only [renderAll, ih, renderBuf, hr]
        simp

end Rst

namespace Rst

/-- C1: For every input text, the sequence of tokens emitted by the token
stream covers the input exactly: concatenating, in emission order, the
characters each emitted token stands for (the newline character for
`Newline`, the carried character for `Whitespace`, the single mapped
character for each punctuation/bullet/bracket token, and the word's text for
`Word`) reproduces the original input character for character, with no
character omitted and none covered twice. -/
theorem C1_token_partition (input : List Char) :
    renderAll (tokenize input) = input := by
  rw [tokenize, renderAll_tokenizeAux]
  rfl

/-- A buffered non-word token is emitted first, unchanged, before the rest
of the stream continues as if the buffer were empty. -/
theorem tokenizeAux_nonword_emit :
    ∀ (cs : List Char) (t : Token), (∀ s, t ≠ Token.Word s) →
      tokenizeAux (some t) cs = t :: tokenizeAux none cs := by
  intro cs
  induction cs with
  | nil => intro t ht; rfl
  | cons c rest ih =>
    intro t ht
    cases hp : Token.parse_char c with
    | none =>
      rw [tokenizeAux_nonword_then_word t c rest hp ht, tokenizeAux_none_word c rest hp]
    | some tok =>
      rw [tokenizeAux_buf_classified t tok c rest hp,
        tokenizeAux_none_classified tok c rest hp,
        ih tok (fun s => parse_char_ne_word c s ∘ (hp.trans <| congrArg some ·))]

/-- A run of word characters accumulates onto the buffered word. -/
theorem tokenizeAux_word_accum :
    ∀ (run : List Char), (∀ c ∈ run, Token.parse_char c = none) →
      ∀ (w : List Char) (rest : List Char),
        tokenizeAux (some (Token.Word w)) (run ++ rest)
          = tokenizeAux (some (Token.Word (w ++ run))) rest := by
  intro run
  induction run with
  | nil => intro _ w rest; simp
  | cons c run2 ih =>
    intro hall w rest
    have hc : Token.parse_char c = none := hall c (List.mem_cons_self c run2)
    rw [List.cons_append, tokenizeAux_word_extend w c (run2 ++ rest) hc,
      ih (fun d hd => hall d (List.mem_cons_of_mem c hd)) (w ++ [c]) rest]
    simp

end Rst

namespace Rst

/-- Every `Word` in the drained stream is non-empty and made only of
unclassified characters, provided the incoming buffer satisfies the same
invariant. -/
theorem tokenizeAux_words_ok :
    ∀ (cs : List Char) (b : Option Token),
      (∀ w, b = some (Token.Word w) → w ≠ [] ∧ ∀ c ∈ w, Token.parse_char c = none) →
      ∀ s, Token.Word s ∈ tokenizeAux b cs →
        s ≠ [] ∧ ∀ c ∈ s, Token.parse_char c = none := by
  intro cs
  induction cs with
  | nil =>
    intro b hb s hs
    cases b with
    | none => simp [tokenizeAux_nil] at hs
    | some t =>
      simp [tokenizeAux_nil] at hs
      exact hb s (by rw [hs])
  | cons c rest ih =>
    intro b hb s hs
    cases hp : Token.parse_char c with
    | none =>
      cases b with
      | none =>
        rw [tokenizeAux_none_word c rest hp] at hs
        refine ih (some (Token.Word [c])) ?_ s hs
        intro w hw
        cases hw
        exact ⟨by simp, by simpa using hp⟩
      | some t =>
        by_cases hwt : ∃ w, t = Token.Word w
        · obtain ⟨w, rfl⟩ := hwt
          rw [tokenizeAux_word_extend w c rest hp] at hs
          refine ih (some (Token.Word (w ++ [c]))) ?_ s hs
          intro w2 hw2
          cases hw2
          have hw := hb w rfl
          refine ⟨by simp, ?_⟩
          intro d hd
          rcases List.mem_append.mp hd with hd | hd
          · exact hw.2 d hd
          · simpa [List.eq_of_mem_singleton hd] using hp
        · push_neg at hwt
          rw [tokenizeAux_nonword_then_word t c rest hp hwt] at hs
          rcases List.mem_cons.mp hs with hs | hs
          · exact absurd hs.symm (hwt s)
          · refine ih (some (Token.Word [c])) ?_ s hs
            intro w hw
            cases hw
            exact ⟨by simp, by simpa using hp⟩
    | some tok =>
      cases b with
      | none =>
        rw [tokenizeAux_none_classified tok c rest hp] at hs
        rcases List.mem_cons.mp hs with hs | hs
        · exact absurd (hp.trans (congrArg some hs.symm)) (parse_char_ne_word c s)
        · exact ih none (by simp) s hs
      | some t =>
        rw [tokenizeAux_buf_classified t tok c rest hp] at hs
        rcases List.mem_cons.mp hs with hs | hs
        · exact hb s (by rw [hs])
        · refine ih (some tok) ?_ s hs
          intro w hw
          exact absurd (hp.trans (congrArg some (Option.some.inj hw)))
            (parse_char_ne_word c w)

/-- C4: Every `Word` token emitted by the token stream is non-empty and
contains no character that `parse_char` classifies; a maximal run of
unclassified characters (followed by end of input or a classified
character) is emitted as exactly one `Word` token whose text equals the
run; in particular input "abc123" yields exactly one token,
`Word "abc123"`. -/
theorem C4_word_coalescing (input run rest : List Char)
    (hrun : run ≠ []) (hall : ∀ c ∈ run, Token.parse_char c = none)
    (hrest : ∀ c ∈ rest.take 1, Token.parse_char c ≠ none) :
    (∀ s, Token.Word s ∈ tokenize input →
        s ≠ [] ∧ ∀ c ∈ s, Token.parse_char c = none)
    ∧ tokenize (run ++ rest) = Token.Word run :: tokenize rest
    ∧ (∀ t : Token, (∀ s, t ≠ Token.Word s) →
        tokenizeAux (some t) (run ++ rest)
          = t :: Token.Word run :: tokenize rest)
    ∧ tokenize ("abc123".data) = [Token.Word ("abc123".data)] := by
  have h2 : tokenize (run ++ rest) = Token.Word run :: tokenize rest := by
    obtain ⟨r, run2, rfl⟩ : ∃ r run2, run = r :: run2 := by
      cases run with
      | nil => exact absurd rfl hrun
      | cons r run2 => exact ⟨r, run2, rfl⟩
    have hr : Token.parse_char r = none := hall r (List.mem_cons_self r run2)
    have hrun2 : ∀ c ∈ run2, Token.parse_char c = none :=
      fun c hc => hall c (List.mem_cons_of_mem r hc)
    rw [tokenize, List.cons_append, tokenizeAux_none_word r (run2 ++ rest) hr,
      tokenizeAux_word_accum run2 hrun2 [r] rest]
    cases rest with
    | nil => rfl
    | cons c0 rest2 =>
      obtain ⟨tok, hp⟩ : ∃ tok, Token.parse_char c0 = some tok := by
        have := hrest c0 (by simp)
        cases hk : Token.parse_char c0 with
        | none => exact absurd hk this
        | some tok => exact ⟨tok, rfl⟩
      have htok : ∀ w, tok ≠ Token.Word w :=
        fun w hw => parse_char_ne_word c0 w (hp.trans (congrArg some hw))
      rw [tokenizeAux_buf_classified (Token.Word ([r] ++ run2)) tok c0 rest2 hp,
        tokenize, tokenizeAux_none_classified tok c0 rest2 hp,
        tokenizeAux_nonword_emit rest2 tok htok]
      simp
  refine ⟨fun s hs => tokenizeAux_words_ok input none (by simp) s hs, h2,
    ?_, by decide⟩
  intro t ht
  rw [tokenizeAux_nonword_emit (run ++ rest) t ht]
  exact congrArg (List.cons t) h2

/-- Witness for C4 at a concrete input: the run "ab" followed by "-x",
and the coalescing example "abc123". -/
theorem C4_word_coalescing_witness :
    (("ab".data : List Char) ≠ []
      ∧ (∀ c ∈ ("ab".data : List Char), Token.parse_char c = none)
      ∧ (∀ c ∈ ("-x".data : List Char).take 1, Token.parse_char c ≠ none))
    ∧ ((∀ s, Token.Word s ∈ tokenize ("abc123".data) →
          s ≠ [] ∧ ∀ c ∈ s, Token.parse_char c = none)
        ∧ tokenize ("ab".data ++ "-x".data) = Token.Word ("ab".data) :: tokenize ("-x".data)
        ∧ (∀ t : Token, (∀ s, t ≠ Token.Word s) →
            tokenizeAux (some t) ("ab".data ++ "-x".data)
              = t :: Token.Word ("ab".data) :: tokenize ("-x".data))
        ∧ tokenize ("abc123".data) = [Token.Word ("abc123".data)]) :=
  ⟨⟨by decide, by decide, by decide⟩,
    C4_word_coalescing ("abc123".data) ("ab".data) ("-x".data)
      (by decide) (by decide) (by decide)⟩

end Rst

namespace Rst
namespace Token

/-- Rust `u64::from_str` as used by `word.parse::<u64>()`: an optional
leading '+', then one or more ASCII digits, rejecting values that do not
fit in 64 bits. -/
def parseU64 (s : List Char) : Option Nat :=
  let digits := match s with
    | c :: rest => if c = '+' then rest else s
    | [] => s
  if digits = [] then none
  else if digits.all Char.isDigit then
    let v := digits.foldl (fun a c => a * 10 + (c.toNat - 48)) 0
    if v < 2 ^ 64 then some v else none
  else none

/-- `Token::from_arabic_numeral` (`src/tokens.rs`): the word's text parses
as a base-10 `u64`, and zero is rejected. -/
def from_arabic_numeral : Token → Option Nat
  | Word word =>
    match parseU64 word with
    | none => none
    | some 0 => none
    | some n => some n
  | _ => none

/-- Byte length of the word's text (Rust `str::len`). -/
def utf8Len (s : List Char) : Nat :=
  (s.map Char.utf8Size).sum

/-- `Token::from_latin_numeral` (`src/tokens.rs`): exactly one byte of
text, an ASCII letter, valued by its position in the alphabet
(case-insensitive). -/
def from_latin_numeral : Token → Option Nat
  | Word word =>
    if utf8Len word ≠ 1 then none
    else
      match word.head? with
      | none => none
      | some letter =>
        if letter.isAlpha then some (letter.toUpper.toNat - 65 + 1)
        else none
  | _ => none

/-- `Token::ROMAN_NUMERALS` (`src/tokens.rs`): ordered `(symbol, skip,
value)` rows, largest value first. -/
def ROMAN_NUMERALS : List (List Char × Nat × Nat) :=
  [ (['M','M','M','M'], 2, 4000),
    (['M'], 0, 1000),
    (['C','M'], 4, 900),
    (['D'], 1, 500),
    (['C','D'], 2, 400),
    (['C'], 0, 100),
    (['X','C'], 4, 90),
    (['L'], 1, 50),
    (['X','L'], 2, 40),
    (['X'], 0, 10),
    (['I','X'], 4, 9),
    (['V'], 1, 5),
    (['I','V'], 2, 4),
    (['I'], 0, 1) ]

/-- The `iter().enumerate().find(...)` step of `from_roman_numeral`: the
first row of the remaining table whose symbol is a prefix of the remaining
text, with its index in the remaining table. -/
def findRoman : List (List Char × Nat × Nat) → List Char →
    Option (Nat × (List Char × Nat × Nat))
  | [], _ => none
  | row :: rest, word =>
    if row.1.isPrefixOf word then some (0, row)
    else (findRoman rest word).map (fun p => (p.1 + 1, p.2))

/-- The `while word.len() > 0` loop of `Token::from_roman_numeral`, with a
fuel argument bounding the iteration count (each iteration consumes at
least one character, so `word.length` fuel suffices).  State: remaining
table slice, remaining text, accumulated total, and the `last` vector of
consecutively matched symbols. -/
def romanLoop : Nat → List (List Char × Nat × Nat) → List Char → Nat →
    List (List Char) → Option Nat
  | _, _, [], total, _ => if total ≠ 0 then some total else none
  | 0, _, _ :: _, _, _ => none
  | fuel + 1, numerals, c :: w, total, last =>
    let word := c :: w
    match findRoman numerals word with
    | none => none
    | some (index, (numeral, skip, value)) =>
      if last.head? = some numeral then
        if skip = 0 then
          let last2 := last ++ [numeral]
          if last2.length > 3 then none
          else
            romanLoop fuel (numerals.drop index) (word.drop numeral.length)
              (total + value) last2
        else none
      else
        let numerals2 :=
          if skip = 0 then numerals.drop index else numerals.drop (index + skip)
        romanLoop fuel numerals2 (word.drop numeral.length) (total + value)
          [numeral]

/-- `Token::from_roman_numeral` (`src/tokens.rs`): normalize to uppercase
only when the whole word is ASCII lowercase, then run the table-driven
decoding loop from the full table, empty text consumed so far and an empty
`last` vector. -/
def from_roman_numeral : Token → Option Nat
  | Word word =>
    let word2 := if word.all Char.isLower then word.map Char.toUpper else word
    romanLoop word2.length ROMAN_NUMERALS word2 0 []
  | _ => none

/-- `Token::from_numeral` (`src/tokens.rs`): Arabic, then Latin, then
Roman, first success wins. -/
def from_numeral (t : Token) : Option Nat :=
  ((t.from_arabic_numeral).orElse fun _ => t.from_latin_numeral).orElse
    fun _ => t.from_roman_numeral

end Token

example : Token.from_roman_numeral (Token.Word ("XIV".data)) = some 14 := by decide
example : Token.from_roman_numeral (Token.Word ("IIII".data)) = none := by decide
example : Token.from_roman_numeral (Token.Word ("mcmxcix".data)) = some 1999 := by
  decide
example : Token.from_numeral (Token.Word ['C']) = some 3 := by decide
example : Token.from_roman_numeral (Token.Word ['C']) = some 100 := by decide
example : Token.from_arabic_numeral (Token.Word ("42".data)) = some 42 := by decide
example : Token.from_arabic_numeral (Token.Word ("0".data)) = none := by decide

end Rst

namespace Rst

/-- C2: `from_numeral` tries Arabic, then Latin, then Roman decoding and
returns the first success; consequently, for the token `Word "C"`,
`from_numeral` returns 3 (the Latin alphabet position of C), not the Roman
value 100. -/
theorem C2_from_numeral_precedence :
    (∀ t : Token,
        t.from_numeral
          = ((t.from_arabic_numeral).orElse fun _ => t.from_latin_numeral).orElse
              fun _ => t.from_roman_numeral)
    ∧ Token.from_numeral (Token.Word ['C']) = some 3
    ∧ Token.from_arabic_numeral (Token.Word ['C']) = none
    ∧ Token.from_latin_numeral (Token.Word ['C']) = some 3
    ∧ Token.from_roman_numeral (Token.Word ['C']) = some 100 :=
  ⟨fun _ => rfl, by decide, by decide, by decide, by decide⟩

/-- C5: Roman-numeral decoding of `Word` tokens: "XIV" decodes to 14;
"IIII" does not match (a single-character symbol repeated more than 3
consecutive times fails); "mcmxcix", being all lowercase, is normalized to
uppercase and decodes to 1999. -/
theorem C5_roman_numerals :
    Token.from_roman_numeral (Token.Word ("XIV".data)) = some 14
    ∧ Token.from_roman_numeral (Token.Word ("IIII".data)) = none
    ∧ Token.from_roman_numeral (Token.Word ("mcmxcix".data)) = some 1999 :=
  ⟨by decide, by decide, by decide⟩

end Rst

namespace Rst

/-- `ADORNMENT_CHARS` from `src/ast.rs`: the 32 characters that may be
used as section adornments. -/
def ADORNMENT_CHARS : List Char :=
  [ '!', Char.ofNat 0x22, '#', '$', '%', '&', Char.ofNat 0x27, '(',
    ')', '*', '+', ',', '-', '.', '/', ':',
    ';', '<', '=', '>', '?', '@', '[', Char.ofNat 0x5C,
    ']', '^', '_', Char.ofNat 0x60, Char.ofNat 0x7B, '|', Char.ofNat 0x7D, '~' ]

namespace Token

/-- `Token::is_adornment` from `src/tokens.rs`.  The Rust `match` lists
`Ampersand`, `OpenBracket` and `CloseBracket` twice (the duplicate arms are
unreachable) and has no arms for `At`, `OpenBrace` and `CloseBrace`, so
those three fall to the catch-all `false` arm; the transcription lists each
reachable arm once. -/
def is_adornment : Token → Bool
  | Exclamation => true
  | DoubleQuote => true
  | Hash => true
  | Dollar => true
  | Percent => true
  | Ampersand => true
  | SingleQuote => true
  | OpenParen => true
  | CloseParen => true
  | Asterisk => true
  | Plus => true
  | Comma => true
  | Hyphen => true
  | Period => true
  | ForwardSlash => true
  | Colon => true
  | SemiColon => true
  | LessThan => true
  | Equal => true
  | GreaterThan => true
  | Question => true
  | OpenBracket => true
  | BackSlash => true
  | CloseBracket => true
  | Caret => true
  | Underscore => true
  | Backtick => true
  | Pipe => true
  | Tilde => true
  | _ => false

end Token

/-- C3 (code bug evaluation): `'@'`, `'\x7b'` and `'\x7d'` are in
`ADORNMENT_CHARS` and classify to the punctuation tokens `At`, `OpenBrace`
and `CloseBrace`, yet `is_adornment` returns `false` on those three tokens,
contradicting the claim (and the code's own adornment documentation); for
every other character of `ADORNMENT_CHARS` the classified token is an
adornment, and `Newline`, `Whitespace` and `Word` tokens are never
adornments. -/
theorem C3_adornment_bug :
    ('@' ∈ ADORNMENT_CHARS ∧ Token.parse_char '@' = some Token.At
      ∧ Token.is_adornment Token.At = false)
    ∧ (Char.ofNat 0x7B ∈ ADORNMENT_CHARS
      ∧ Token.parse_char (Char.ofNat 0x7B) = some Token.OpenBrace
      ∧ Token.is_adornment Token.OpenBrace = false)
    ∧ (Char.ofNat 0x7D ∈ ADORNMENT_CHARS
      ∧ Token.parse_char (Char.ofNat 0x7D) = some Token.CloseBrace
      ∧ Token.is_adornment Token.CloseBrace = false)
    ∧ (∀ c ∈ ADORNMENT_CHARS, c ≠ '@' → c ≠ Char.ofNat 0x7B →
        c ≠ Char.ofNat 0x7D →
        (Token.parse_char c).map Token.is_adornment = some true)
    ∧ Token.is_adornment Token.Newline = false
    ∧ (∀ c, Token.is_adornment (Token.Whitespace c) = false)
    ∧ (∀ s, Token.is_adornment (Token.Word s) = false) :=
  ⟨by decide, by decide, by decide, by decide, rfl, fun _ => rfl, fun _ => rfl⟩

end Rst

namespace Rst

/-- `TextSource` from `src/location.rs`: a named in-memory buffer. -/
structure TextSource where
  name : String
  buffer : List Char
  deriving DecidableEq, Repr

/-- `TextSource::chars` (`src/location.rs` line 55): always returns `Some`
of an iterator over the borrowed buffer, starting from its beginning; the
source itself is unchanged (state-passing rendering of `&mut self`). -/
def TextSource.chars (s : TextSource) : Option (List Char) × TextSource :=
  (some s.buffer, s)

/-- The outcome of one `BufReader::read_line` call, as the model of the
underlying byte stream: a queue of pending read outcomes (an error, or the
characters of one line); once the queue is empty every further read
returns an empty line (end of input). -/
def LineSource := List (Except Unit (List Char))

/-- One `read_line` call against the modelled byte stream. -/
def readLine : LineSource → Except Unit (List Char) × LineSource
  | [] => (Except.ok [], [])
  | x :: rest => (x, rest)

/-- `ReaderChars` from `src/location.rs`: cursor, decoded line buffer, and
the buffered reader. -/
structure ReaderChars where
  next : Nat
  buffer : List Char
  source : LineSource

/-- `ReaderChars::from_reader` (`src/location.rs`): empty buffer, cursor
at zero. -/
def ReaderChars.from_reader (r : LineSource) : ReaderChars :=
  ⟨0, [], r⟩

/-- `ReaderChars::next_char` (`src/location.rs` lines 118-126): serve the
next buffered character if any. -/
def ReaderChars.next_char (s : ReaderChars) : Option Char × ReaderChars :=
  if h : s.next < s.buffer.length then
    (some (s.buffer.get ⟨s.next, h⟩), { s with next := s.next + 1 })
  else
    (none, s)

/-- `ReaderChars::refill_buffer` (`src/location.rs` lines 128-138): one
`read_line` call; on success the decoded line replaces the buffer and the
cursor resets, on failure the buffer and cursor are left unchanged. -/
def ReaderChars.refill_buffer (s : ReaderChars) : Except Unit Unit × ReaderChars :=
  match readLine s.source with
  | (Except.ok line, src) => (Except.ok (), { next := 0, buffer := line, source := src })
  | (Except.error e, src) => (Except.error e, { s with source := src })

/-- `<ReaderChars as Iterator>::next` (`src/location.rs` lines 144-154):
serve a buffered character, otherwise refill once and either propagate the
read error or serve from the refilled buffer (`none` when the refill
produced an empty line, i.e. end of input). -/
def ReaderChars.nextItem (s : ReaderChars) : Option (Except Unit Char) × ReaderChars :=
  match s.next_char with
  | (some c, s1) => (some (Except.ok c), s1)
  | (none, s1) =>
    match s1.refill_buffer with
    | (Except.error e, s2) => (some (Except.error e), s2)
    | (Except.ok _, s2) =>
      match s2.next_char with
      | (some c, s3) => (some (Except.ok c), s3)
      | (none, s3) => (none, s3)

/-- `ReaderSource` from `src/location.rs`: a named, take-once reader. -/
structure ReaderSource where
  name : String
  reader : Option LineSource

/-- `ReaderSource::chars` (`src/location.rs` line 96):
`self.reader.take().map(ReaderChars::from_reader)` — the reader is moved
out, so a second call finds `None`. -/
def ReaderSource.chars (s : ReaderSource) : Option ReaderChars × ReaderSource :=
  (s.reader.map ReaderChars.from_reader, { s with reader := none })

/-- C6 counterexample: the in-memory text source is NOT single-use — a
second `chars()` call returns `Some` of a fresh iterator over the full
buffer again, not `None`. -/
theorem C6_counterexample :
    ((TextSource.mk "example" ("ab".data)).chars.1 = some ("ab".data))
    ∧ ((((TextSource.mk "example" ("ab".data)).chars.2).chars.1)
        = some ("ab".data)) :=
  ⟨rfl, rfl⟩

/-- C6 (amended): only the reader-backed source is single-use — its
`chars()` takes the reader, so any second call yields `None`; the
in-memory text source returns `Some` of the full buffer on every call and
so supports unlimited reuse of its underlying storage. -/
theorem C6_single_use :
    (∀ s : ReaderSource, ((s.chars.2).chars.1 = none))
    ∧ (∀ t : TextSource, t.chars.1 = some t.buffer ∧ t.chars.2 = t) :=
  ⟨fun _ => rfl, fun _ => ⟨rfl, rfl⟩⟩

/-- C7 counterexample: a pull that yields a read error does NOT leave the
iterator permanently exhausted — with the byte stream erroring once and
then producing the line "a", the pull after the error retries the read and
yields the character, not `None`. -/
theorem C7_counterexample :
    ((ReaderChars.mk 0 [] [Except.error (), Except.ok ['a']]).nextItem.1
        = some (Except.error ()))
    ∧ (((ReaderChars.mk 0 [] [Except.error (), Except.ok ['a']]).nextItem.2).nextItem.1
        = some (Except.ok 'a')) :=
  ⟨rfl, rfl⟩

/-- C7 (amended): a read error is surfaced as one `Err` item and consumes
only that read attempt: the character buffer and cursor are unchanged, and
the next pull performs a new read of the underlying source — if it
succeeds the iterator resumes yielding characters. -/
theorem C7_error_retries (k : Nat) (buf : List Char) (c : Char)
    (line : List Char) (rest : LineSource) (h : buf.length ≤ k) :
    (ReaderChars.mk k buf (Except.error () :: Except.ok (c :: line) :: rest)).nextItem
      = (some (Except.error ()),
          ReaderChars.mk k buf (Except.ok (c :: line) :: rest))
    ∧ (ReaderChars.mk k buf (Except.ok (c :: line) :: rest)).nextItem
      = (some (Except.ok c), ReaderChars.mk 1 (c :: line) rest) := by
  have hk : ¬ k < buf.length := Nat.not_lt.mpr h
  constructor
  · simp [ReaderChars.nextItem, ReaderChars.next_char, ReaderChars.refill_buffer,
      readLine, hk]
  · simp [ReaderChars.nextItem, ReaderChars.next_char, ReaderChars.refill_buffer,
      readLine, hk]

/-- Witness for C7 at a concrete state: empty buffer, an error then the
line "a". -/
theorem C7_error_retries_witness :
    (([] : List Char).length ≤ 0)
    ∧ ((ReaderChars.mk 0 [] [Except.error (), Except.ok ['a']]).nextItem
        = (some (Except.error ()), ReaderChars.mk 0 [] [Except.ok ['a']])
      ∧ (ReaderChars.mk 0 [] [Except.ok ['a']]).nextItem
        = (some (Except.ok 'a'), ReaderChars.mk 1 ['a'] [])) :=
  ⟨by decide, C7_error_retries 0 [] 'a' [] [] (by decide)⟩

end Rst

namespace Rst

/-- The mutable state of a `TokenStream` (`src/tokens.rs`): the one-token
lookahead buffer and the remaining items of the character source (each an
error or a character; once the list is empty the source is exhausted for
good, matching `Chars` at end of input). -/
structure TSState where
  buffer : Option Token
  chars : List (Except Unit Char)
  deriving Repr

/-- The loop body of `<TokenStream as Iterator>::next` (`src/tokens.rs`
lines 26-64), one full call: returns the yielded item (if any) and the
stream state afterwards.  The arms mirror the Rust
`match (self.buffer.take(), self.chars.next())` and the inner
`match (buffer, Token::parse_char(c))`; word characters keep looping. -/
def nextToken : Option Token → List (Except Unit Char) →
    Option (Except Unit Token) × TSState
  | buffer, [] => (buffer.map Except.ok, ⟨none, []⟩)
  | buffer, Except.error e :: rest => (some (Except.error e), ⟨buffer, rest⟩)
  | buffer, Except.ok c :: rest =>
    match buffer, Token.parse_char c with
    | some (Token.Word s), none => nextToken (some (Token.Word (s ++ [c]))) rest
    | some t, none => (some (Except.ok t), ⟨some (Token.Word [c]), rest⟩)
    | some t, some tok => (some (Except.ok t), ⟨some tok, rest⟩)
    | none, some tok => (some (Except.ok tok), ⟨none, rest⟩)
    | none, none => nextToken (some (Token.Word [c])) rest

/-- One pull of the token stream from a state. -/
def TSState.pull (s : TSState) : Option (Except Unit Token) × TSState :=
  nextToken s.buffer s.chars

/-- The state after `k` further pulls. -/
def TSState.afterPulls (s : TSState) : Nat → TSState
  | 0 => s
  | k + 1 => ((s.afterPulls k).pull).2

/-- Reduction: a read error yields the error and restores the buffer. -/
theorem nextToken_err (b : Option Token) (e : Unit) (rest : List (Except Unit Char)) :
    nextToken b (Except.error e :: rest) = (some (Except.error e), ⟨b, rest⟩) := rfl

/-- Reduction: a word character extends a buffered `Word` and loops. -/
theorem nextToken_word_extend (s : List Char) (c : Char)
    (rest : List (Except Unit Char)) (hp : Token.parse_char c = none) :
    nextToken (some (Token.Word s)) (Except.ok c :: rest)
      = nextToken (some (Token.Word (s ++ [c]))) rest := by
  simp [nextToken, hp]

/-- Reduction: a word character after a buffered non-word token emits the
buffered token and buffers a fresh one-character word. -/
theorem nextToken_nonword_word (t : Token) (c : Char)
    (rest : List (Except Unit Char)) (hp : Token.parse_char c = none)
    (ht : ∀ s, t ≠ Token.Word s) :
    nextToken (some t) (Except.ok c :: rest)
      = (some (Except.ok t), ⟨some (Token.Word [c]), rest⟩) := by
  cases t <;> simp [nextToken, hp]
  exact absurd rfl (ht _)

/-- Reduction: a classified character emits the buffered token and buffers
the new one. -/
theorem nextToken_buf_classified (t tok : Token) (c : Char)
    (rest : List (Except Unit Char)) (hp : Token.parse_char c = some tok) :
    nextToken (some t) (Except.ok c :: rest)
      = (some (Except.ok t), ⟨some tok, rest⟩) := by
  cases t <;> simp [nextToken, hp]

/-- Reduction: with an empty buffer a classified character is emitted
immediately. -/
theorem nextToken_none_classified (tok : Token) (c : Char)
    (rest : List (Except Unit Char)) (hp : Token.parse_char c = some tok) :
    nextToken none (Except.ok c :: rest) = (some (Except.ok tok), ⟨none, rest⟩) := by
  simp [nextToken, hp]

/-- Reduction: with an empty buffer a word character starts a
one-character word and loops. -/
theorem nextToken_none_word (c : Char) (rest : List (Except Unit Char))
    (hp : Token.parse_char c = none) :
    nextToken none (Except.ok c :: rest)
      = nextToken (some (Token.Word [c])) rest := by
  simp [nextToken, hp]

/-- A pull that yields `None` leaves the stream in the empty terminal
state. -/
theorem pull_none_state :
    ∀ (cs : List (Except Unit Char)) (b : Option Token),
      (nextToken b cs).1 = none → (nextToken b cs).2 = ⟨none, []⟩ := by
  intro cs
  induction cs with
  | nil => intro b _; rfl
  | cons x rest ih =>
    intro b h
    cases x with
    | error e =>
      rw [nextToken_err] at h
      simp at h
    | ok c =>
      cases hp : Token.parse_char c with
      | none =>
        cases b with
        | none =>
          rw [nextToken_none_word c rest hp] at h ⊢
          exact ih _ h
        | some t =>
          by_cases hw : ∃ s, t = Token.Word s
          · obtain ⟨s, rfl⟩ := hw
            rw [nextToken_word_extend s c rest hp] at h ⊢
            exact ih _ h
          · push_neg at hw
            rw [nextToken_nonword_word t c rest hp hw] at h
            simp at h
      | some tok =>
        cases b with
        | none =>
          rw [nextToken_none_classified tok c rest hp] at h
          simp at h
        | some t =>
          rw [nextToken_buf_classified t tok c rest hp] at h
          simp at h

/-- C8: the token stream is exhaustion-idempotent — once a pull yields
`None`, every subsequent pull also yields `None`. -/
theorem C8_exhaustion_idempotent (s : TSState) (h : (s.pull).1 = none)
    (k : Nat) : ((s.afterPulls (k + 1)).pull).1 = none := by
  have hterm : ∀ j, s.afterPulls (j + 1) = ⟨none, []⟩ := by
    intro j
    induction j with
    | zero =>
      show (s.pull).2 = _
      exact pull_none_state s.chars s.buffer h
    | succ j ihj =>
      show ((s.afterPulls (j + 1)).pull).2 = _
      rw [ihj]
      rfl
  rw [hterm k]
  rfl

/-- Witness for C8 at the exhausted state. -/
theorem C8_exhaustion_idempotent_witness :
    ((TSState.mk none []).pull.1 = none)
    ∧ (((TSState.mk none []).afterPulls 3).pull).1 = none :=
  ⟨rfl, C8_exhaustion_idempotent (TSState.mk none []) rfl 2⟩

/-- C10: when the character source yields a read error while a token is
buffered, the stream yields the error as its next item and restores the
buffered token unchanged; the buffered token is then still emitted — by
the end-of-input flush, or by the next pull when the following character
is classified. -/
theorem C10_error_keeps_buffer (t : Token) (rest : List (Except Unit Char))
    (c : Char) (tok : Token) (hc : Token.parse_char c = some tok) :
    (TSState.mk (some t) (Except.error () :: rest)).pull
      = (some (Except.error ()), ⟨some t, rest⟩)
    ∧ (TSState.mk (some t) []).pull = (some (Except.ok t), ⟨none, []⟩)
    ∧ (TSState.mk (some t) (Except.ok c :: rest)).pull
      = (some (Except.ok t), ⟨some tok, rest⟩) :=
  ⟨rfl, rfl, nextToken_buf_classified t tok c rest hc⟩

/-- Witness for C10: a buffered `Hyphen` with a newline as the next
character. -/
theorem C10_error_keeps_buffer_witness :
    (Token.parse_char '\n' = some Token.Newline)
    ∧ ((TSState.mk (some Token.Hyphen) [Except.error ()]).pull
        = (some (Except.error ()), ⟨some Token.Hyphen, []⟩)
      ∧ (TSState.mk (some Token.Hyphen) []).pull
        = (some (Except.ok Token.Hyphen), ⟨none, []⟩)
      ∧ (TSState.mk (some Token.Hyphen) [Except.ok '\n']).pull
        = (some (Except.ok Token.Hyphen), ⟨some Token.Newline, []⟩)) :=
  ⟨by decide, C10_error_keeps_buffer Token.Hyphen [] '\n' Token.Newline (by decide)⟩

end Rst

namespace Rst

/-- `Location` from `src/location.rs`: zero-based row and column, and the
count of characters consumed so far. -/
structure Location where
  row : Nat
  column : Nat
  character : Nat
  deriving DecidableEq, Repr

/-- `Location::location_after` (`src/location.rs` lines 214-226): a
newline bumps the row and resets the column, any other character bumps the
column; the character count always bumps by one. -/
def Location.location_after (l : Location) (next : Char) : Location :=
  let rc := if next = '\n' then (l.row + 1, 0) else (l.row, l.column + 1)
  { row := rc.1, column := rc.2, character := l.character + 1 }

/-- Strict ordering of locations under the row/column/offset ordering. -/
def Location.lt (a b : Location) : Prop :=
  a.row < b.row
  ∨ (a.row = b.row
      ∧ (a.column < b.column ∨ (a.column = b.column ∧ a.character < b.character)))

/-- C9: `location_after` is total over all characters and, for every
location: consuming `'\n'` increments the row and resets the column to 0,
consuming any other character increments the column and keeps the row; the
offset (character count) always increments by exactly 1, so the result is
strictly greater than the input location. -/
theorem C9_location_after (l : Location) (c : Char) :
    (if c = '\n' then
        (l.location_after c).row = l.row + 1 ∧ (l.location_after c).column = 0
      else
        (l.location_after c).row = l.row
          ∧ (l.location_after c).column = l.column + 1)
    ∧ (l.location_after c).character = l.character + 1
    ∧ Location.lt l (l.location_after c) := by
  by_cases hc : c = '\n'
  · refine ⟨?_, ?_, ?_⟩
    · simp [Location.location_after, hc]
    · simp [Location.location_after, hc]
    · exact Or.inl (by simp [Location.location_after, hc])
  · refine ⟨?_, ?_, ?_⟩
    · simp [Location.location_after, hc]
    · simp [Location.location_after, hc]
    · exact Or.inr ⟨by simp [Location.location_after, hc],
        Or.inl (by simp [Location.location_after, hc])⟩

end Rst
